import Mathlib

/-!
Verification of the caption-assembly pipeline of `ocr_worker.py`
(subtitle-extract repository).

The Python source is shallowly embedded below:
* Python `str` is Lean `String` (ASCII scope: the whitespace set used by
  `str.strip` / `str.split` is modelled by `isPySpace`);
* Python `float` second offsets are modelled as `ℚ`, with Python's
  banker's rounding `round` modelled exactly by `pyRound`;
* external collaborators (`ffprobe`, `ffmpeg`, `tesseract`) are modelled
  by an `Oracle` of pure response functions, and the observable actions of
  `process_job` are recorded in an explicit `Effect` trace.
-/

unseal Rat.mul Rat.add Rat.sub Rat.inv Rat.ofScientific

/-- Whitespace characters recognised by Python's default `str.strip` /
`str.split` (ASCII fragment). -/
def isPySpace (c : Char) : Bool :=
  c == ' ' || c == '\t' || c == '\n' || c == '\r' || c == '\x0b' || c == '\x0c'

/-- Python `str.strip()` on the underlying character list: drop leading and
trailing whitespace. -/
def stripList (l : List Char) : List Char :=
  (((l.dropWhile isPySpace).reverse).dropWhile isPySpace).reverse

/-- Python `str.strip()`. -/
def pyStrip (s : String) : String :=
  ⟨stripList s.data⟩

/-- Python `str.lower()` (ASCII scope). -/
def pyLower (s : String) : String :=
  ⟨s.data.map Char.toLower⟩

/-- Helper for `pyJoin`: interleave `sep` between the parts. -/
def joinSep (sep : List Char) : List (List Char) → List Char
  | [] => []
  | [x] => x
  | x :: y :: xs => x ++ sep ++ joinSep sep (y :: xs)

/-- Python `sep.join(parts)`. -/
def pyJoin (sep : String) (parts : List String) : String :=
  ⟨joinSep sep.data (parts.map String.data)⟩

/-- Python `str.split()` with no argument: maximal runs of non-whitespace. -/
def pySplitWs (s : String) : List String :=
  (s.split (fun c => isPySpace c)).filter (fun t => t ≠ "")

/-- Whitespace normalisation `" ".join(text.split())` used by `ocr_image`. -/
def collapse_ws (s : String) : String :=
  pyJoin " " (pySplitWs s)

/-- Python 3 `round` on an exact rational: round half to even
(`Rat.floor` is used rather than `Int.floor` so that the definition
evaluates by kernel reduction; the two agree, see `pyRound_eq`). -/
def pyRound (q : ℚ) : ℤ :=
  let f := q.floor
  let r := q - (f : ℚ)
  if r < 1/2 then f
  else if 1/2 < r then f + 1
  else if f % 2 = 0 then f else f + 1

/-- Zero-pad a rendered number to width `w`, as Python's `{:0w}` format
does on the nonnegative values appearing in `seconds_to_srt_time`. -/
def zfill (w : Nat) (s : String) : String :=
  if s.length < w then ⟨List.replicate (w - s.length) '0' ++ s.data⟩ else s

/-- Python `f"{n:02}"` for the nonnegative integers used below. -/
def fmt0 (w : Nat) (n : ℤ) : String :=
  zfill w (toString n)

/-- One subtitle frame interval, `FrameInfo` in the source (the Python
field `end` is named `stop` here because `end` is a Lean keyword). -/
structure FrameInfo where
  start : ℚ
  stop : ℚ
  deriving DecidableEq

/-- `seconds_to_srt_time` from the source: clamp negatives to zero, round
to milliseconds, then carry into `HH:MM:SS,mmm` (Python `//` is `Int.fdiv`). -/
def seconds_to_srt_time (value : ℚ) : String :=
  let v := if value < 0 then (0 : ℚ) else value
  let millis := pyRound (v * 1000)
  let hours := Int.fdiv millis 3600000
  let millis1 := millis - hours * 3600000
  let minutes := Int.fdiv millis1 60000
  let millis2 := millis1 - minutes * 60000
  let seconds := Int.fdiv millis2 1000
  let millis3 := millis2 - seconds * 1000
  fmt0 2 hours ++ ":" ++ fmt0 2 minutes ++ ":" ++ fmt0 2 seconds ++ "," ++ fmt0 3 millis3

/-- One emitted caption record: the pieces interpolated into the f-string
of `build_srt`. -/
structure CaptionEntry where
  num : Nat
  start : String
  stop : String
  text : String
  deriving DecidableEq

/-- The f-string `f"{index}\n{start} --> {end}\n{text}\n"` of `build_srt`. -/
def renderEntry (e : CaptionEntry) : String :=
  toString e.num ++ "\n" ++ e.start ++ " --> " ++ e.stop ++ "\n" ++ e.text ++ "\n"

/-- The `for frame, text in zip(frames, texts)` loop of `build_srt`: skip
empty text, skip equal formatted timestamps, otherwise emit the entry and
advance the counter. -/
def buildEntries : List FrameInfo → List String → Nat → List CaptionEntry
  | f :: fs, t :: ts, index =>
    if t = "" then buildEntries fs ts index
    else
      let start := seconds_to_srt_time f.start
      let stop := seconds_to_srt_time f.stop
      if start = stop then buildEntries fs ts index
      else ⟨index, start, stop, t⟩ :: buildEntries fs ts (index + 1)
  | _, _, _ => []

/-- `build_srt` from the source:
`"\n".join(entries).strip() + ("\n" if entries else "")`. -/
def build_srt (frames : List FrameInfo) (texts : List String) : String :=
  let entries := (buildEntries frames texts 1).map renderEntry
  pyStrip (pyJoin "\n" entries) ++ (if entries.isEmpty then "" else "\n")

/-- Modelled from the spec (§4.5 step 4), for comparison with `build_srt`:
serialize the emitted entries in order as blocks
`sequenceNumber\nstart --> end\ntext\n` separated by a blank line, with a
single trailing newline if any entries exist and an empty result otherwise.
(Each block already ends in a newline, so separating consecutive blocks by
one blank line is interleaving one extra newline between them.) -/
def srt_spec (entries : List CaptionEntry) : String :=
  if entries.isEmpty then "" else pyJoin "\n" (entries.map renderEntry)

/-- `DEFAULT_LANG` from the source. -/
def DEFAULT_LANG : String := "eng"

/-- `SUPPORTED_TYPES` from the source (a set in Python; only membership is
ever used, so a list is an adequate model). -/
def SUPPORTED_TYPES : List String := ["vobsub", "pgs"]

/-- The `aliases` dictionary of `normalize_language`. -/
def language_aliases : List (String × String) :=
  [("en", "eng"), ("english", "eng"), ("ja", "jpn"), ("jp", "jpn"),
   ("japanese", "jpn"), ("und", DEFAULT_LANG)]

/-- `normalize_language` from the source: `None`/empty map to the default;
otherwise lower-case, strip, and apply the alias table
(`aliases.get(lang, lang)`). -/
def normalize_language : Option String → String
  | none => DEFAULT_LANG
  | some l =>
    if l = "" then DEFAULT_LANG
    else
      let l2 := pyStrip (pyLower l)
      (language_aliases.lookup l2).getD l2

/-- An ASCII single-quote character as a string (used in log messages). -/
def squote : String := String.singleton (Char.ofNat 39)

/-- The fallback warning logged by `resolve_language`. -/
def langWarn (normalized : String) : String :=
  "[warn] Requested language " ++ squote ++ normalized ++ squote ++
    " not installed. Falling back to " ++ squote ++ DEFAULT_LANG ++ squote ++ "."

/-- `resolve_language` from the source, with the external
`list_tesseract_languages()` call modelled by the `available` argument.
The first component is the returned pair or the raised `JobError` message;
the second component is the list of warning lines logged. -/
def resolve_language (requested : Option String) (available : List String) :
    Except String (String × List String) × List String :=
  let normalized := normalize_language requested
  if normalized ∈ available then (.ok (normalized, available), [])
  else if DEFAULT_LANG ∈ available then
    (.ok (DEFAULT_LANG, available), [langWarn normalized])
  else
    (.error "tesseract language data missing (eng not installed)", [langWarn normalized])

/-- The per-image failure line logged by `process_job`:
`f"[error] OCR failed on {image_path}: {exc.stderr.strip()}"`. -/
def ocrErrLine (image_path stderr : String) : String :=
  "[error] OCR failed on " ++ image_path ++ ": " ++ pyStrip stderr

/-- `ocr_image` from the source, with the external tesseract invocation
modelled by `runT` (returning captured stdout, or stderr on a
`CalledProcessError`): normalise the recognised text by
`" ".join(result.stdout.strip().split())`. -/
def ocr_image (runT : String → String → Except String String)
    (image_path language : String) : Except String String :=
  match runT image_path language with
  | .error e => .error e
  | .ok out => .ok (collapse_ws (pyStrip out))

/-- The recognition loop of `process_job` (lines 240-247): per-image
failures are caught, logged, and degrade to empty text. Returns the
`texts` list and the error lines logged, in order. -/
def recognize_all (runT : String → String → Except String String)
    (language : String) : List String → List String × List String
  | [] => ([], [])
  | img :: rest =>
    let r := recognize_all runT language rest
    match ocr_image runT img language with
    | .ok t => (t :: r.1, r.2)
    | .error e => ("" :: r.1, ocrErrLine img (pyStrip e) :: r.2)

/-- Observable actions of one `process_job` run, in order: filesystem
validation, the external collaborator invocations, and output writing. -/
inductive Effect where
  | checkWritable (dir : String)
  | checkReadable (path : String)
  | listLangs
  | probeFrames (input : String)
  | makeTempDir
  | extractImages (input : String)
  | runOcr (image : String)
  | writeOutput (path : String) (content : String)
  | checkOutput (path : String)
  deriving DecidableEq

/-- Image-extraction / recognition / temporary-storage effects, the ones a
dry run must never perform. -/
def Effect.touchesImages : Effect → Bool
  | .makeTempDir => true
  | .extractImages _ => true
  | .runOcr _ => true
  | _ => false

/-- Pure model of the environment behind the external calls of
`process_job`: filesystem predicates, the installed tesseract languages,
and the collaborator outputs per input path. -/
structure Oracle where
  isfile : String → Bool
  readable : String → Bool
  isdir : String → Bool
  writable : String → Bool
  installedLangs : List String
  frameData : String → List FrameInfo
  imageFiles : String → List String
  ocrRun : String → String → Except String String

/-- A job record as read from the job JSON (`job.get(...)` fields). -/
structure Job where
  type : Option String
  idx : Option String
  bitmap_file : Option String
  language : Option String
  srt_output : Option String

/-- `os.path.dirname` (POSIX): everything before the final slash, with
trailing slashes stripped unless the head is all slashes. -/
def dirname (p : String) : String :=
  let rev := p.data.reverse
  let afterName := rev.dropWhile (fun c => c ≠ '/')
  if afterName = [] then ""
  else if afterName.all (fun c => c = '/') then ⟨afterName.reverse⟩
  else ⟨(afterName.dropWhile (fun c => c = '/')).reverse⟩

/-- The root part of `os.path.splitext` (POSIX): drop the extension after
the last dot of the basename, unless the basename consists only of
leading dots up to that point. -/
def splitext_root (p : String) : String :=
  let rev := p.data.reverse
  let tailPart := rev.dropWhile (fun c => c ≠ '.' && c ≠ '/')
  match tailPart with
  | '.' :: rest =>
    if (rest.takeWhile (fun c => c ≠ '/')).any (fun c => c ≠ '.') then ⟨rest.reverse⟩
    else p
  | _ => p

/-- `ensure_readable` from the source, over the filesystem oracle. -/
def ensure_readable (o : Oracle) (path : String) : Except String Unit :=
  if path = "" then .error "Missing required file path"
  else if !(o.isfile path) then .error ("File not found: " ++ path)
  else if !(o.readable path) then .error ("File not readable: " ++ path)
  else .ok ()

/-- `ensure_writable` from the source: returns the directory that was
checked (`os.path.dirname(path) or "."`) together with the outcome. -/
def ensure_writable (o : Oracle) (path : String) : String × Except String Unit :=
  let d0 := dirname path
  let d := if d0 = "" then "." else d0
  (d,
    if !(o.isdir d) then .error ("Output directory does not exist: " ++ d)
    else if !(o.writable d) then .error ("Output directory not writable: " ++ d)
    else .ok ())

/-- The input-path validation of `process_job` (lines 200-213): the
vobsub branch checks the `.idx` file and its `.sub` companion, the pgs
branch checks `bitmap_file`. Returns the selected input path and the
readability checks performed. -/
def resolve_input (o : Oracle) (job : Job) (job_type : String) :
    Except String String × List Effect :=
  if job_type = "vobsub" then
    let idx_path := job.idx.getD ""
    if idx_path = "" then (.error "Missing idx path for vobsub job", [])
    else
      match ensure_readable o idx_path with
      | .error e => (.error e, [Effect.checkReadable idx_path])
      | .ok _ =>
        let companion := splitext_root idx_path ++ ".sub"
        match ensure_readable o companion with
        | .error e =>
          (.error e, [Effect.checkReadable idx_path, Effect.checkReadable companion])
        | .ok _ =>
          (.ok idx_path, [Effect.checkReadable idx_path, Effect.checkReadable companion])
  else
    let bitmap_path := job.bitmap_file.getD ""
    if bitmap_path = "" then (.error "Missing bitmap_file path for pgs job", [])
    else
      match ensure_readable o bitmap_path with
      | .error e => (.error e, [Effect.checkReadable bitmap_path])
      | .ok _ => (.ok bitmap_path, [Effect.checkReadable bitmap_path])

/-- `process_job` from the source, over the oracle. The result is the
returned status code (`.ok`) or the raised `JobError` message (`.error`),
paired with the trace of observable effects. The final
`validate_output` check is modelled against the content just written
(the write is modelled as faithful). -/
def process_job (o : Oracle) (job : Job) (dry_run : Bool) :
    Except String Nat × List Effect :=
  let job_type := pyStrip (pyLower (job.type.getD ""))
  if job_type ∈ SUPPORTED_TYPES then
    let srt_output := job.srt_output.getD ""
    if srt_output = "" then (.error "Missing srt_output in job", [])
    else
      let wres := ensure_writable o srt_output
      let tr0 := [Effect.checkWritable wres.1]
      match wres.2 with
      | .error e => (.error e, tr0)
      | .ok _ =>
        let ri := resolve_input o job job_type
        match ri.1 with
        | .error e => (.error e, tr0 ++ ri.2)
        | .ok input_path =>
          let tr1 := tr0 ++ ri.2 ++ [Effect.listLangs]
          match (resolve_language job.language o.installedLangs).1 with
          | .error e => (.error e, tr1)
          | .ok lp =>
            let language := lp.1
            let frames := o.frameData input_path
            let tr2 := tr1 ++ [Effect.probeFrames input_path]
            if frames = [] then (.ok 2, tr2)
            else if dry_run then (.ok 0, tr2)
            else
              let images := o.imageFiles input_path
              let tr3 := tr2 ++ [Effect.makeTempDir, Effect.extractImages input_path]
              if images = [] then (.ok 2, tr3)
              else
                let count := min images.length frames.length
                let used := images.take count
                let ocrRes := recognize_all o.ocrRun language used
                let texts := ocrRes.1
                let tr4 := tr3 ++ used.map Effect.runOcr
                let srt_content := build_srt (frames.take count) texts
                if pyStrip srt_content = "" then (.ok 2, tr4)
                else
                  (.ok 0,
                    tr4 ++ [Effect.writeOutput srt_output srt_content,
                            Effect.checkOutput srt_output])
  else (.ok 2, [])

example : seconds_to_srt_time 1 = "00:00:01,000" := by decide
example : seconds_to_srt_time (3/2) = "00:00:01,500" := by decide
example : seconds_to_srt_time (-5) = "00:00:00,000" := by decide
example : seconds_to_srt_time 3661.25 = "01:01:01,250" := by decide
example :
    build_srt [⟨0, 3/2⟩, ⟨3/2, 3/2⟩] ["HELLO", "WORLD"] =
      "1\n00:00:00,000 --> 00:00:01,500\nHELLO\n" := by decide
example : build_srt [] [] = "" := by decide

/-! ### Properties of the assembler loop -/

lemma buildEntries_text_props :
    ∀ (fs : List FrameInfo) (ts : List String) (i : Nat) (e : CaptionEntry),
      e ∈ buildEntries fs ts i → e.text ∈ ts ∧ e.text ≠ "" ∧ e.start ≠ e.stop := by
  intro fs
  induction fs with
  | nil => intro ts i e he; simp [buildEntries] at he
  | cons f fs ih =>
    intro ts i e he
    cases ts with
    | nil => simp [buildEntries] at he
    | cons t ts =>
      simp only [buildEntries] at he
      split_ifs at he with h1 h2
      · obtain ⟨hm, hp⟩ := ih ts i e he
        exact ⟨List.mem_cons_of_mem _ hm, hp⟩
      · obtain ⟨hm, hp⟩ := ih ts i e he
        exact ⟨List.mem_cons_of_mem _ hm, hp⟩
      · rcases List.mem_cons.mp he with rfl | he2
        · exact ⟨List.mem_cons_self _ _, h1, h2⟩
        · obtain ⟨hm, hp⟩ := ih ts (i + 1) e he2
          exact ⟨List.mem_cons_of_mem _ hm, hp⟩

lemma buildEntries_map_num :
    ∀ (fs : List FrameInfo) (ts : List String) (i : Nat),
      (buildEntries fs ts i).map CaptionEntry.num
        = List.range' i (buildEntries fs ts i).length := by
  intro fs
  induction fs with
  | nil => intro ts i; simp [buildEntries]
  | cons f fs ih =>
    intro ts i
    cases ts with
    | nil => simp [buildEntries]
    | cons t ts =>
      simp only [buildEntries]
      split_ifs with h1 h2
      · exact ih ts i
      · exact ih ts i
      · simp only [List.map_cons, List.length_cons, List.range'_succ]
        exact congrArg (List.cons i) (ih ts (i + 1))

lemma buildEntries_min_take :
    ∀ (fs : List FrameInfo) (ts : List String) (i : Nat),
      buildEntries fs ts i
        = buildEntries (fs.take (min fs.length ts.length))
            (ts.take (min fs.length ts.length)) i := by
  intro fs
  induction fs with
  | nil => intro ts i; simp [buildEntries]
  | cons f fs ih =>
    intro ts i
    cases ts with
    | nil => simp [buildEntries]
    | cons t ts =>
      have hm : min (f :: fs).length (t :: ts).length = min fs.length ts.length + 1 := by
        simp [Nat.succ_min_succ]
      rw [hm, List.take_succ_cons, List.take_succ_cons]
      simp only [buildEntries]
      split_ifs with h1 h2
      · exact ih ts i
      · exact ih ts i
      · exact congrArg _ (ih ts (i + 1))

/-- C1: the assembler never emits a caption entry whose text is empty or
whose formatted start timestamp equals its formatted end timestamp (the
entries serialized by `build_srt` are exactly `buildEntries frames texts 1`). -/
theorem claim_C1 (frames : List FrameInfo) (texts : List String) (e : CaptionEntry)
    (he : e ∈ buildEntries frames texts 1) : e.text ≠ "" ∧ e.start ≠ e.stop :=
  (buildEntries_text_props frames texts 1 e he).2

/-- Witness for C1 at a concrete input: the single entry emitted for one
frame of positive duration is subject to the invariant. -/
theorem claim_C1_witness :
    (⟨1, "00:00:00,000", "00:00:01,000", "HI"⟩ : CaptionEntry) ∈
        buildEntries [⟨0, 1⟩] ["HI"] 1 ∧
      ("00:00:00,000" : String) ≠ "00:00:01,000" :=
  ⟨by decide,
    (claim_C1 [⟨0, 1⟩] ["HI"] ⟨1, "00:00:00,000", "00:00:01,000", "HI"⟩ (by decide)).2⟩

/-- C2: sequence numbers of the emitted entries are exactly `1, 2, 3, ...`
contiguously in emission order: mapping `num` over the emitted entries
yields `range' 1 k` where `k` is the number of emitted entries, no matter
how many input pairs were dropped. -/
theorem claim_C2 (frames : List FrameInfo) (texts : List String) :
    (buildEntries frames texts 1).map CaptionEntry.num
      = List.range' 1 (buildEntries frames texts 1).length :=
  buildEntries_map_num frames texts 1

/-- C3: the assembler consumes exactly the first
`min (length timing) (length text)` positional pairs — truncating both
lists there does not change the result (so there is no out-of-bounds
access for any pair of lengths); in particular with timing length 5 and
text length 3 only the first 3 pairs are considered. -/
theorem claim_C3 (frames : List FrameInfo) (texts : List String) (i : Nat) :
    buildEntries frames texts i
        = buildEntries (frames.take (min frames.length texts.length))
            (texts.take (min frames.length texts.length)) i
      ∧ (frames.length = 5 → texts.length = 3 →
          buildEntries frames texts i
            = buildEntries (frames.take 3) (texts.take 3) i) := by
  refine ⟨buildEntries_min_take frames texts i, fun h5 h3 => ?_⟩
  have := buildEntries_min_take frames texts i
  rwa [h5, h3] at this

/-- Witness for C3 at a concrete input with 5 frames and 3 texts. -/
theorem claim_C3_witness :
    buildEntries [⟨0, 1⟩, ⟨1, 2⟩, ⟨2, 3⟩, ⟨3, 4⟩, ⟨4, 5⟩] ["a", "b", "c"] 1
      = buildEntries ([⟨0, 1⟩, ⟨1, 2⟩, ⟨2, 3⟩, ⟨3, 4⟩, ⟨4, 5⟩].take 3)
          (["a", "b", "c"].take 3) 1 :=
  (claim_C3 [⟨0, 1⟩, ⟨1, 2⟩, ⟨2, 3⟩, ⟨3, 4⟩, ⟨4, 5⟩] ["a", "b", "c"] 1).2 rfl rfl

/-! ### The timestamp formatter -/

lemma ratFloor_eq (q : ℚ) : q.floor = ⌊q⌋ := by
  rw [Rat.floor_def', Rat.floor_def]

lemma pyRound_nonneg (q : ℚ) (h : 0 ≤ q) : 0 ≤ pyRound q := by
  have hf : 0 ≤ ⌊q⌋ := Int.floor_nonneg.mpr h
  simp only [pyRound, ratFloor_eq]
  split_ifs <;> omega

/-- C4: for `v ≥ 0` the formatted timestamp is
`HH:MM:SS,mmm` with zero-padded fields, where `mmm` is
`round(v*1000) mod 1000`, the seconds and minutes fields are below 60, and
the carries are exact (`H*3600000 + M*60000 + S*1000 + m` recomposes the
rounded milliseconds, so hours are unbounded rather than wrapped at 24);
and formatting `-x` for `x > 0` gives the same string as formatting 0. -/
theorem claim_C4 (v x : ℚ) (hv : 0 ≤ v) (hx : 0 < x) :
    (∃ H M S m : ℤ,
        seconds_to_srt_time v
            = fmt0 2 H ++ ":" ++ fmt0 2 M ++ ":" ++ fmt0 2 S ++ "," ++ fmt0 3 m
          ∧ m = pyRound (v * 1000) % 1000
          ∧ 0 ≤ S ∧ S < 60 ∧ 0 ≤ M ∧ M < 60 ∧ 0 ≤ H
          ∧ H * 3600000 + M * 60000 + S * 1000 + m = pyRound (v * 1000))
      ∧ seconds_to_srt_time (-x) = seconds_to_srt_time 0 := by
  constructor
  · have hclamp : (if v < 0 then (0 : ℚ) else v) = v := if_neg (not_lt.mpr hv)
    have hn : 0 ≤ pyRound (v * 1000) := pyRound_nonneg _ (by positivity)
    have f1 : ∀ a : ℤ, Int.fdiv a 3600000 = a / 3600000 :=
      fun a => Int.fdiv_eq_ediv a (by norm_num)
    have f2 : ∀ a : ℤ, Int.fdiv a 60000 = a / 60000 :=
      fun a => Int.fdiv_eq_ediv a (by norm_num)
    have f3 : ∀ a : ℤ, Int.fdiv a 1000 = a / 1000 :=
      fun a => Int.fdiv_eq_ediv a (by norm_num)
    simp only [seconds_to_srt_time, hclamp, f1, f2, f3]
    refine ⟨_, _, _, _, rfl, ?_, ?_, ?_, ?_, ?_, ?_, ?_⟩ <;> omega
  · have h1 : (-x : ℚ) < 0 := neg_lt_zero.mpr hx
    simp only [seconds_to_srt_time]
    rw [if_pos h1, if_neg (lt_irrefl (0 : ℚ))]

/-- Witness for C4 at `v = 7/2` and `x = 1`. -/
theorem claim_C4_witness :
    ((0 : ℚ) ≤ 7/2 ∧ (0 : ℚ) < 1)
      ∧ ((∃ H M S m : ℤ,
            seconds_to_srt_time (7/2)
                = fmt0 2 H ++ ":" ++ fmt0 2 M ++ ":" ++ fmt0 2 S ++ "," ++ fmt0 3 m
              ∧ m = pyRound ((7/2) * 1000) % 1000
              ∧ 0 ≤ S ∧ S < 60 ∧ 0 ≤ M ∧ M < 60 ∧ 0 ≤ H
              ∧ H * 3600000 + M * 60000 + S * 1000 + m = pyRound ((7/2) * 1000))
          ∧ seconds_to_srt_time (-1) = seconds_to_srt_time 0) :=
  ⟨⟨by norm_num, by norm_num⟩, claim_C4 (7/2) 1 (by norm_num) (by norm_num)⟩

/-! ### Language resolution -/

/-- C6: language resolution returns the normalized requested tag exactly
when it is installed (hence resolving an already-canonical installed tag
returns it unchanged, with no warning); when it is absent it returns the
default tag after a non-fatal warning; and it raises the fatal
`JobError` if and only if the normalized tag is absent and the default
tag is also not installed. -/
theorem claim_C6 (requested : Option String) (available : List String) :
    (normalize_language requested ∈ available →
        resolve_language requested available
          = (.ok (normalize_language requested, available), []))
      ∧ (normalize_language requested ∉ available → DEFAULT_LANG ∈ available →
          resolve_language requested available
            = (.ok (DEFAULT_LANG, available), [langWarn (normalize_language requested)]))
      ∧ ((∃ msg, (resolve_language requested available).1 = .error msg) ↔
          normalize_language requested ∉ available ∧ DEFAULT_LANG ∉ available) := by
  unfold resolve_language
  by_cases h1 : normalize_language requested ∈ available
  · simp [h1]
  · by_cases h2 : DEFAULT_LANG ∈ available <;> simp [h1, h2]

/-- Witness for C6: requesting an uninstalled language with the default
installed falls back to the default with a warning. -/
theorem claim_C6_witness :
    resolve_language (some "fra") ["eng"]
      = (.ok (DEFAULT_LANG, ["eng"]), [langWarn (normalize_language (some "fra"))]) :=
  (claim_C6 (some "fra") ["eng"]).2.1 (by decide) (by decide)

lemma toLower_of_isPySpace {c : Char} (h : isPySpace c = true) : Char.toLower c = c := by
  simp only [isPySpace, Bool.or_eq_true, beq_iff_eq] at h
  rcases h with ((((rfl | rfl) | rfl) | rfl) | rfl) | rfl <;> decide

lemma stripList_of_all_space {l : List Char} (h : ∀ c ∈ l, isPySpace c = true) :
    stripList l = [] := by
  have h1 : l.dropWhile isPySpace = [] := List.dropWhile_eq_nil_iff.mpr h
  unfold stripList
  rw [h1]
  simp

/-- C10: a non-empty, all-whitespace requested tag normalizes to the empty
string (unlike a missing tag, which maps directly to the default), and
resolution then treats the empty string as an uninstalled tag, taking the
warn-and-fall-back path to the default. -/
theorem claim_C10 (s : String) (available : List String)
    (hne : s ≠ "") (hsp : ∀ c ∈ s.data, isPySpace c = true)
    (hno : "" ∉ available) (hdef : DEFAULT_LANG ∈ available) :
    normalize_language (some s) = ""
      ∧ normalize_language none = DEFAULT_LANG
      ∧ resolve_language (some s) available
          = (.ok (DEFAULT_LANG, available), [langWarn ""]) := by
  have hl : pyStrip (pyLower s) = "" := by
    have hstrip : stripList (s.data.map Char.toLower) = [] := by
      refine stripList_of_all_space ?_
      intro c hc
      rcases List.mem_map.mp hc with ⟨a, ha, rfl⟩
      rw [toLower_of_isPySpace (hsp a ha)]
      exact hsp a ha
    simp [pyStrip, pyLower, hstrip]
  have hnorm : normalize_language (some s) = "" := by
    simp only [normalize_language, if_neg hne, hl]
    decide
  refine ⟨hnorm, rfl, ?_⟩
  unfold resolve_language
  rw [hnorm, if_neg hno, if_pos hdef]

/-- Witness for C10 with `s = " "` and the default installed. -/
theorem claim_C10_witness :
    normalize_language (some " ") = ""
      ∧ normalize_language none = DEFAULT_LANG
      ∧ resolve_language (some " ") ["eng"]
          = (.ok (DEFAULT_LANG, ["eng"]), [langWarn ""]) :=
  claim_C10 " " ["eng"] (by decide) (by decide) (by decide) (by decide)

/-! ### The job pipeline -/

/-- A concrete all-permissive environment used by the witnesses. -/
def demoOracle : Oracle where
  isfile := fun _ => true
  readable := fun _ => true
  isdir := fun _ => true
  writable := fun _ => true
  installedLangs := ["eng"]
  frameData := fun _ => [⟨0, 1⟩]
  imageFiles := fun _ => []
  ocrRun := fun _ _ => .ok ""

/-- C8: a job whose case-folded, trimmed type is outside the supported set
`{vobsub, pgs}` makes `process_job` return the NeedsReview code 2
immediately, with an empty effect trace: no path validation, language
resolution, extraction, or any filesystem work happens. -/
theorem claim_C8 (o : Oracle) (job : Job) (dry_run : Bool)
    (h : pyStrip (pyLower (job.type.getD "")) ∉ SUPPORTED_TYPES) :
    process_job o job dry_run = (.ok 2, []) := by
  unfold process_job
  rw [if_neg h]

/-- Witness for C8 on a job of type `"srt"`. -/
theorem claim_C8_witness :
    process_job demoOracle ⟨some "srt", none, none, none, some "out.srt"⟩ false
      = (.ok 2, []) :=
  claim_C8 demoOracle ⟨some "srt", none, none, none, some "out.srt"⟩ false (by decide)

/-- C7: a recognition failure on one image is caught locally: the texts
list keeps one (empty) slot for that frame and every other image is still
processed (the texts list always has one entry per image, successes keep
their normalised text), and each failure is logged with the image identity
and the underlying error. -/
theorem claim_C7 (runT : String → String → Except String String) (language : String)
    (images : List String) :
    (recognize_all runT language images).1.length = images.length
      ∧ ∀ i, i < images.length →
          (∀ s, runT (images.getD i "") language = .ok s →
              (recognize_all runT language images).1.getD i ""
                = collapse_ws (pyStrip s))
          ∧ (∀ msg, runT (images.getD i "") language = .error msg →
              (recognize_all runT language images).1.getD i "" = ""
                ∧ ocrErrLine (images.getD i "") (pyStrip msg)
                    ∈ (recognize_all runT language images).2) := by
  induction images with
  | nil => exact ⟨rfl, fun i hi => absurd hi (by simp)⟩
  | cons img rest ih =>
    constructor
    · cases h : runT img language with
      | ok s0 => simp [recognize_all, ocr_image, h, ih.1]
      | error e0 => simp [recognize_all, ocr_image, h, ih.1]
    · intro i hi
      cases i with
      | zero =>
        constructor
        · intro s hs
          simp only [List.getD_cons_zero] at hs
          simp [recognize_all, ocr_image, hs]
        · intro msg hm
          simp only [List.getD_cons_zero] at hm
          simp [recognize_all, ocr_image, hm]
      | succ j =>
        have hj : j < rest.length := by simpa using hi
        obtain ⟨hok, herr⟩ := ih.2 j hj
        constructor
        · intro s hs
          simp only [List.getD_cons_succ] at hs ⊢
          have := hok s hs
          cases h : runT img language with
          | ok s0 => simpa [recognize_all, ocr_image, h] using this
          | error e0 => simpa [recognize_all, ocr_image, h] using this
        · intro msg hm
          simp only [List.getD_cons_succ] at hm ⊢
          obtain ⟨h1, h2⟩ := herr msg hm
          cases h : runT img language with
          | ok s0 =>
            refine ⟨by simpa [recognize_all, ocr_image, h] using h1, ?_⟩
            simpa [recognize_all, ocr_image, h] using h2
          | error e0 =>
            refine ⟨by simpa [recognize_all, ocr_image, h] using h1, ?_⟩
            simp only [recognize_all, ocr_image, h]
            exact List.mem_cons_of_mem _ h2

/-- Witness for C7: one failing image yields an empty text slot and a log
line naming the image and the error. -/
theorem claim_C7_witness :
    (recognize_all (fun _ _ => .error "boom") "eng" ["a.png"]).1.getD 0 "" = ""
      ∧ ocrErrLine "a.png" (pyStrip "boom")
          ∈ (recognize_all (fun _ _ => .error "boom") "eng" ["a.png"]).2 :=
  ((claim_C7 (fun _ _ => .error "boom") "eng" ["a.png"]).2 0 (by decide)).2 "boom" rfl

lemma resolve_input_no_image_work (o : Oracle) (job : Job) (jt : String) :
    ((resolve_input o job jt).2).filter Effect.touchesImages = [] := by
  unfold resolve_input
  by_cases h1 : jt = "vobsub"
  · by_cases h2 : job.idx.getD "" = ""
    · simp [h1, h2, Effect.touchesImages]
    · cases h3 : ensure_readable o (job.idx.getD "") with
      | error e => simp [h1, h2, h3, Effect.touchesImages]
      | ok u =>
        cases h4 : ensure_readable o (splitext_root (job.idx.getD "") ++ ".sub") with
        | error e => simp [h1, h2, h3, h4, Effect.touchesImages]
        | ok u => simp [h1, h2, h3, h4, Effect.touchesImages]
  · by_cases h2 : job.bitmap_file.getD "" = ""
    · simp [h1, h2, Effect.touchesImages]
    · cases h3 : ensure_readable o (job.bitmap_file.getD "") with
      | error e => simp [h1, h2, h3, Effect.touchesImages]
      | ok u => simp [h1, h2, h3, Effect.touchesImages]

/-- C9: in dry-run mode, a job that passes type validation, output-path
validation, input-path validation and language resolution, and whose
loaded timing sequence is non-empty, makes `process_job` return the
success code 0 with a trace free of image extraction, recognition and
temporary-directory work. -/
theorem claim_C9 (o : Oracle) (job : Job) (input_path : String)
    (ht : pyStrip (pyLower (job.type.getD "")) ∈ SUPPORTED_TYPES)
    (hsrt : job.srt_output.getD "" ≠ "")
    (hw : (ensure_writable o (job.srt_output.getD "")).2 = .ok ())
    (hin : (resolve_input o job (pyStrip (pyLower (job.type.getD "")))).1 = .ok input_path)
    (hlang : ∃ r, (resolve_language job.language o.installedLangs).1 = .ok r)
    (hfr : o.frameData input_path ≠ []) :
    (process_job o job true).1 = .ok 0
      ∧ ((process_job o job true).2).filter Effect.touchesImages = [] := by
  obtain ⟨r, hr⟩ := hlang
  simp only [process_job, ht, hsrt, hw, hin, hr, hfr, if_true, if_false,
    reduceIte, ite_true, ite_false]
  constructor
  · trivial
  · simp [List.filter_append, Effect.touchesImages, resolve_input_no_image_work]

/-- Witness for C9: a pgs job in an all-permissive environment with one
timing frame. -/
theorem claim_C9_witness :
    (process_job demoOracle ⟨some "pgs", none, some "b.sup", none, some "out.srt"⟩ true).1
        = .ok 0
      ∧ ((process_job demoOracle
            ⟨some "pgs", none, some "b.sup", none, some "out.srt"⟩ true).2).filter
          Effect.touchesImages = [] :=
  claim_C9 demoOracle ⟨some "pgs", none, some "b.sup", none, some "out.srt"⟩ "b.sup"
    (by decide) (by decide) rfl rfl ⟨("eng", ["eng"]), rfl⟩ (by decide)

/-! ### Serialization: build_srt refines the spec-side format -/

lemma data_ne_nil {s : String} (h : s ≠ "") : s.data ≠ [] := by
  intro hd
  exact h (String.ext hd)

lemma dropWhile_of_head_not {l : List Char}
    (h : ∀ c, l.head? = some c → isPySpace c = false) :
    l.dropWhile isPySpace = l := by
  cases l with
  | nil => rfl
  | cons a f =>
    have ha := h a rfl
    rw [List.dropWhile_cons, if_neg (by simp [ha])]

/-- Stripping a list that ends in a newline and whose body neither starts
nor ends with whitespace removes exactly that newline. -/
lemma stripList_of_ends {l : List Char}
    (hh : ∀ c, l.head? = some c → isPySpace c = false)
    (hl : ∀ c, l.getLast? = some c → isPySpace c = false) :
    stripList (l ++ ['\n']) = l := by
  cases l with
  | nil => rfl
  | cons a f =>
    have ha := hh a rfl
    unfold stripList
    rw [List.cons_append, List.dropWhile_cons, if_neg (by simp [ha])]
    rw [show a :: (f ++ ['\n']) = (a :: f) ++ ['\n'] from rfl]
    rw [List.reverse_append]
    rw [show (['\n'] : List Char).reverse ++ (a :: f).reverse
          = '\n' :: (a :: f).reverse from rfl]
    rw [List.dropWhile_cons, if_pos (by decide)]
    have h2 : (a :: f).reverse.dropWhile isPySpace = (a :: f).reverse :=
      dropWhile_of_head_not (fun c hc => hl c (by rwa [List.getLast?_eq_head?_reverse]))
    rw [h2, List.reverse_reverse]

lemma joinSep_cons_ne (sep x : List Char) {l : List (List Char)} (h : l ≠ []) :
    joinSep sep (x :: l) = x ++ sep ++ joinSep sep l := by
  cases l with
  | nil => exact absurd rfl h
  | cons y ys => rfl

lemma joinSep_concat (sep : List Char) :
    ∀ (xs : List (List Char)) (y : List Char), ∃ p, joinSep sep (xs ++ [y]) = p ++ y := by
  intro xs
  induction xs with
  | nil => intro y; exact ⟨[], rfl⟩
  | cons x xs ih =>
    intro y
    obtain ⟨p, hp⟩ := ih y
    refine ⟨x ++ sep ++ p, ?_⟩
    rw [List.cons_append, joinSep_cons_ne sep x (by simp), hp]
    simp [List.append_assoc]

lemma joinSep_head (sep x : List Char) (l : List (List Char)) :
    ∃ r, joinSep sep (x :: l) = x ++ r := by
  cases l with
  | nil => exact ⟨[], (List.append_nil x).symm⟩
  | cons y ys =>
    refine ⟨sep ++ joinSep sep (y :: ys), ?_⟩
    rw [joinSep]
    simp [List.append_assoc]

lemma renderEntry_decomp (e : CaptionEntry) :
    ∃ A, (renderEntry e).data = A ++ (e.text.data ++ ['\n']) := by
  refine ⟨(toString e.num ++ "\n" ++ e.start ++ " --> " ++ e.stop ++ "\n").data, ?_⟩
  simp [renderEntry, String.data_append, List.append_assoc,
    show ("\n" : String).data = ['\n'] from rfl]

lemma buildEntries_head_num :
    ∀ (fs : List FrameInfo) (ts : List String) (i : Nat) (e : CaptionEntry)
      (es : List CaptionEntry), buildEntries fs ts i = e :: es → e.num = i := by
  intro fs
  induction fs with
  | nil => intro ts i e es h; simp [buildEntries] at h
  | cons f fs ih =>
    intro ts i e es h
    cases ts with
    | nil => simp [buildEntries] at h
    | cons t ts =>
      simp only [buildEntries] at h
      split_ifs at h with h1 h2
      · exact ih ts i e es h
      · exact ih ts i e es h
      · injection h with h3 h4
        rw [← h3]

/-- A fixed point of `pyStrip` does not end in whitespace. -/
lemma strip_fix_getLast {t : String} (hfix : pyStrip t = t) :
    ∀ c, t.data.getLast? = some c → isPySpace c = false := by
  intro c hc
  by_contra hcon
  have hsp : isPySpace c = true := by
    cases hb : isPySpace c
    · exact absurd hb hcon
    · rfl
  have hdata : stripList t.data = t.data := congrArg String.data hfix
  obtain ⟨M, hM⟩ := List.getLast?_eq_some_iff.mp hc
  by_cases hne : t.data.dropWhile isPySpace = []
  · have hnil : stripList t.data = [] := by
      unfold stripList
      rw [hne]
      rfl
    rw [hdata, hM] at hnil
    simp at hnil
  · obtain ⟨pre, hpre⟩ := List.dropWhile_suffix (p := fun c => isPySpace c) (l := t.data)
    have hlast1 : (t.data.dropWhile isPySpace).getLast? = some c := by
      have h1 : (t.data.dropWhile isPySpace).getLast?.or pre.getLast? = some c := by
        rw [← List.getLast?_append, hpre]
        exact hc
      obtain ⟨d, hd⟩ := Option.isSome_iff_exists.mp (List.getLast?_isSome.mpr hne)
      rw [hd] at h1
      simp only [Option.or_some, Option.some.injEq] at h1
      rw [hd, h1]
    obtain ⟨M2, hM2⟩ := List.getLast?_eq_some_iff.mp hlast1
    have hlen : (stripList t.data).length < t.data.length := by
      unfold stripList
      rw [hM2, List.reverse_append]
      rw [show ([c] : List Char).reverse ++ M2.reverse = c :: M2.reverse from rfl]
      rw [List.dropWhile_cons, if_pos hsp]
      calc (M2.reverse.dropWhile isPySpace).reverse.length
          = (M2.reverse.dropWhile isPySpace).length := List.length_reverse _
        _ ≤ M2.reverse.length := (List.dropWhile_suffix _).length_le
        _ = M2.length := List.length_reverse _
        _ < (M2 ++ [c]).length := by simp
        _ = (t.data.dropWhile isPySpace).length := by rw [hM2]
        _ ≤ t.data.length := (List.dropWhile_suffix _).length_le
    rw [hdata] at hlen
    exact lt_irrefl _ hlen

/-- C5: on normalized (stripped) texts, `build_srt` serializes exactly the
emitted entries in order as blocks `sequenceNumber\nstart --> end\ntext\n`
separated by one blank line, with a single trailing newline when at least
one entry is emitted and the empty string otherwise — that is, it agrees
with the spec-side serialization `srt_spec`. -/
theorem claim_C5 (frames : List FrameInfo) (texts : List String)
    (hnorm : ∀ t ∈ texts, pyStrip t = t) :
    build_srt frames texts = srt_spec (buildEntries frames texts 1) := by
  cases hE : buildEntries frames texts 1 with
  | nil =>
    simp only [build_srt, hE, srt_spec]
    rfl
  | cons e0 es =>
    have hnum : e0.num = 1 := buildEntries_head_num frames texts 1 e0 es hE
    obtain ⟨L, elast, hconcat⟩ : ∃ L b, e0 :: es = L ++ [b] := by
      rcases List.eq_nil_or_concat' (e0 :: es) with h | h
      · exact absurd h (List.cons_ne_nil _ _)
      · exact h
    have hmem : elast ∈ buildEntries frames texts 1 := by
      rw [hE, hconcat]
      exact List.mem_append.mpr (Or.inr (by simp))
    obtain ⟨htmem, htne, hts⟩ := buildEntries_text_props frames texts 1 elast hmem
    have hfix : pyStrip elast.text = elast.text := hnorm _ htmem
    have htd : elast.text.data ≠ [] := data_ne_nil htne
    obtain ⟨A, hA⟩ := renderEntry_decomp elast
    have hlist : (e0 :: es).map renderEntry = L.map renderEntry ++ [renderEntry elast] := by
      rw [hconcat, List.map_append]
      rfl
    obtain ⟨P, hP⟩ :=
      joinSep_concat ['\n'] ((L.map renderEntry).map String.data) ((renderEntry elast).data)
    have hJdata : (pyJoin "\n" ((e0 :: es).map renderEntry)).data
        = joinSep ['\n'] (((e0 :: es).map renderEntry).map String.data) := rfl
    have hplist : ((e0 :: es).map renderEntry).map String.data
        = ((L.map renderEntry).map String.data) ++ [(renderEntry elast).data] := by
      rw [hlist, List.map_append]
      rfl
    have hJ : (pyJoin "\n" ((e0 :: es).map renderEntry)).data
        = (P ++ A ++ elast.text.data) ++ ['\n'] := by
      rw [hJdata, hplist, hP, hA]
      simp [List.append_assoc]
    have hp0 : ((renderEntry e0).data).head? = some '1' := by
      simp only [renderEntry, hnum]
      rfl
    have hheadJ : ((pyJoin "\n" ((e0 :: es).map renderEntry)).data).head? = some '1' := by
      obtain ⟨R, hR⟩ :=
        joinSep_head ['\n'] ((renderEntry e0).data) ((es.map renderEntry).map String.data)
      rw [hJdata]
      rw [show ((e0 :: es).map renderEntry).map String.data
            = (renderEntry e0).data :: ((es.map renderEntry).map String.data) from rfl]
      rw [hR, List.head?_append, hp0]
      rfl
    have hh : ∀ c, (P ++ A ++ elast.text.data).head? = some c → isPySpace c = false := by
      intro c hcx
      have h1 : ((P ++ A ++ elast.text.data) ++ ['\n']).head? = some c := by
        rw [List.head?_append, hcx]
        rfl
      rw [← hJ, hheadJ] at h1
      injection h1 with h2
      rw [← h2]
      decide
    have hl2 : ∀ c, (P ++ A ++ elast.text.data).getLast? = some c → isPySpace c = false := by
      intro c hcx
      have h1 : (elast.text.data).getLast?.or ((P ++ A)).getLast? = some c := by
        rw [← List.getLast?_append]
        exact hcx
      obtain ⟨d, hd⟩ := Option.isSome_iff_exists.mp (List.getLast?_isSome.mpr htd)
      rw [hd] at h1
      simp only [Option.or_some, Option.some.injEq] at h1
      exact h1 ▸ strip_fix_getLast hfix d hd
    have hstrip : stripList ((P ++ A ++ elast.text.data) ++ ['\n'])
        = P ++ A ++ elast.text.data := stripList_of_ends hh hl2
    have hbdata : (build_srt frames texts).data
        = stripList ((pyJoin "\n" ((e0 :: es).map renderEntry)).data) ++ ['\n'] := by
      simp only [build_srt, hE]
      rfl
    apply String.ext
    rw [hbdata, hJ, hstrip, ← hJ]
    rfl

/-- Witness for C5: the spec's §8 end-to-end pair of frames, the second of
which has zero duration. -/
theorem claim_C5_witness :
    (∀ t ∈ ["HELLO", "WORLD"], pyStrip t = t)
      ∧ build_srt [⟨0, 3/2⟩, ⟨3/2, 3/2⟩] ["HELLO", "WORLD"]
          = srt_spec (buildEntries [⟨0, 3/2⟩, ⟨3/2, 3/2⟩] ["HELLO", "WORLD"] 1) :=
  ⟨by decide, claim_C5 _ _ (by decide)⟩
